import Mathlib

/-!
# FlowPaste — verification of the streaming text-replacement engine

Shallow embedding of the core logic of FlowPaste's `App.tsx`
(`sanitizeModelText`, `clampRange`, the SSE line loop and buffer
reconstruction inside `runTextAction`, `applyUndoSnapshot` / `handleUndo`,
and `requestWithRetry`).  JavaScript strings are modelled as `List Char`;
stateful React code is modelled by explicit state passing.
-/

namespace FlowPaste

/-! ## JS string primitives -/

/-- Characters treated as whitespace by JavaScript `String.prototype.trim`
(the WhiteSpace and LineTerminator productions that occur in practice). -/
def isJsWs (c : Char) : Bool :=
  c = ' ' || c = Char.ofNat 9 || c = Char.ofNat 10 || c = Char.ofNat 13 ||
  c = Char.ofNat 11 || c = Char.ofNat 12 || c = Char.ofNat 160 ||
  c = Char.ofNat 0xFEFF || c = Char.ofNat 0x2028 || c = Char.ofNat 0x2029

/-- JS `s.trim()`. -/
def jsTrim (s : List Char) : List Char :=
  (s.dropWhile isJsWs).rdropWhile isJsWs

/-- The quote characters of the sanitizer's regex `/^["'“”]+|["'“”]+$/g`. -/
def quoteCh (c : Char) : Bool :=
  c = Char.ofNat 34 || c = Char.ofNat 39 || c = '“' || c = '”'

/-- JS `t.replace(/^["'“”]+|["'“”]+$/g, '')`: the regex (anchored, no `m`
flag) removes exactly the leading run and the trailing run of quote
characters of the whole string. -/
def stripEdgeQuotes (s : List Char) : List Char :=
  (s.dropWhile quoteCh).rdropWhile quoteCh

/-- Helper for JS `s.split('\n')`: first line and remaining lines. -/
def splitLinesCore : List Char → List Char × List (List Char)
  | [] => ([], [])
  | c :: s =>
    let r := splitLinesCore s
    if c = Char.ofNat 10 then ([], r.1 :: r.2) else (c :: r.1, r.2)

/-- JS `t.split('\n')` (always returns at least one line). -/
def splitLines (s : List Char) : List (List Char) :=
  (splitLinesCore s).1 :: (splitLinesCore s).2

/-- JS `lines.join('\n')`. -/
def joinLines : List (List Char) → List Char
  | [] => []
  | [l] => l
  | l :: l' :: ls => l ++ Char.ofNat 10 :: joinLines (l' :: ls)

/-- JS `l.startsWith(p)` for some pattern in the list. -/
def startsWithAny (ps : List String) (l : List Char) : Bool :=
  ps.any (fun p => p.toList.isPrefixOf l)

/-! ## Output sanitizer (`sanitizeModelText` in `App.tsx`) -/

/-- The explanation-section headers checked by `sanitizeModelText`. -/
def bannedHeaderStrings : List String :=
  ["修正说明", "修改说明", "说明：", "Note:",
   "Explanation:", "Correction:", "Remark:"]

/-- The result-announcement preamble headers checked by `sanitizeModelText`. -/
def preambleStrings : List String :=
  ["修正后的文本", "润色后的文本", "结果：", "基于搜索",
   "Corrected text:", "Polished text:", "Result:"]

/-- The `for (const line of lines)` loop of `sanitizeModelText`, with the
two mutable flags `foundStart` and `inBannedSection` passed explicitly. -/
def sanitizeLoop : List (List Char) → Bool → Bool → List (List Char)
  | [], _, _ => []
  | line :: rest, foundStart, inBanned =>
    let l := jsTrim line
    if startsWithAny bannedHeaderStrings l then
      sanitizeLoop rest foundStart true
    else if inBanned then
      sanitizeLoop rest foundStart inBanned
    else if foundStart then
      line :: sanitizeLoop rest foundStart inBanned
    else if startsWithAny preambleStrings l then
      sanitizeLoop rest foundStart inBanned
    else if l = [] then
      sanitizeLoop rest foundStart inBanned
    else
      line :: sanitizeLoop rest true inBanned

/-- The function `sanitizeModelText` from `App.tsx`: trim, strip edge quotes, drop
preamble lines up to the first substantive line, drop everything from the
first explanation header on, rejoin and trim. -/
def sanitizeModelText (raw : List Char) : List Char :=
  let t := stripEdgeQuotes (jsTrim raw)
  jsTrim (joinLines (sanitizeLoop (splitLines t) false false))

/-- The sanitizer on `String`, for concrete evaluation. -/
def sanitizeStr (s : String) : String :=
  ⟨sanitizeModelText s.toList⟩

/-! ## Generic `dropWhile` / `rdropWhile` lemmas -/

theorem rdropWhile_append_of_pos {α : Type} {p : α → Bool} {l₁ l₂ : List α}
    (h : ∀ a ∈ l₂, p a) : (l₁ ++ l₂).rdropWhile p = l₁.rdropWhile p := by
  unfold List.rdropWhile
  rw [List.reverse_append, List.dropWhile_append_of_pos (by simpa using h)]

theorem rdropWhile_append_of_neg {α : Type} {p : α → Bool} {l₁ l₂ : List α}
    (h : ∃ a ∈ l₂, ¬ p a) : (l₁ ++ l₂).rdropWhile p = l₁ ++ l₂.rdropWhile p := by
  unfold List.rdropWhile
  have hne : l₂.reverse.dropWhile p ≠ [] := by
    rw [Ne, List.dropWhile_eq_nil_iff]
    push_neg
    obtain ⟨a, ha, hpa⟩ := h
    exact ⟨a, by simpa using ha, hpa⟩
  rw [List.reverse_append, List.dropWhile_append, if_neg (by simpa using hne),
    List.reverse_append, List.reverse_reverse]

theorem dropWhile_append_of_neg {α : Type} {p : α → Bool} {l₁ l₂ : List α}
    (h : ∃ a ∈ l₁, ¬ p a) : (l₁ ++ l₂).dropWhile p = l₁.dropWhile p ++ l₂ := by
  have hne : l₁.dropWhile p ≠ [] := by
    rw [Ne, List.dropWhile_eq_nil_iff]
    push_neg
    exact h
  rw [List.dropWhile_append, if_neg (by simpa using hne)]

theorem head_of_listPref {α : Type} {l₁ l₂ : List α} (h : l₁ <+: l₂) (x : α)
    (xs : List α) (hx : l₁ = x :: xs) : ∃ ys, l₂ = x :: ys := by
  obtain ⟨t, ht⟩ := h
  exact ⟨xs ++ t, by rw [← ht, hx]; simp⟩

theorem dropWhile_rdropWhile_comm {α : Type} (p : α → Bool) (s : List α) :
    (s.rdropWhile p).dropWhile p = (s.dropWhile p).rdropWhile p := by
  by_cases hall : ∀ c ∈ s, p c
  · rw [List.rdropWhile_eq_nil_iff.mpr hall, List.dropWhile_eq_nil_iff.mpr hall]
    simp [List.rdropWhile]
  · push_neg at hall
    obtain ⟨c, hc, hpc⟩ := hall
    have hsplit := List.takeWhile_append_dropWhile p s
    have hca : c ∈ s.dropWhile p := by
      have hmem : c ∈ s.takeWhile p ++ s.dropWhile p := by rw [hsplit]; exact hc
      rcases List.mem_append.mp hmem with h | h
      · exact absurd (List.mem_takeWhile_imp h) hpc
      · exact h
    have hex : ∃ a ∈ s.dropWhile p, ¬ p a := ⟨c, hca, hpc⟩
    have hrne : (s.dropWhile p).rdropWhile p ≠ [] := by
      rw [Ne, List.rdropWhile_eq_nil_iff]
      push_neg
      exact hex
    have h1 : s.rdropWhile p = s.takeWhile p ++ (s.dropWhile p).rdropWhile p := by
      conv_lhs => rw [← hsplit]
      exact rdropWhile_append_of_neg hex
    rw [h1, List.dropWhile_append_of_pos (fun a ha => List.mem_takeWhile_imp ha)]
    -- the head of `s.dropWhile p` does not satisfy `p`, and it is also the
    -- head of the nonempty prefix `(s.dropWhile p).rdropWhile p`
    obtain ⟨x, xs, hxs⟩ := List.exists_cons_of_ne_nil hrne
    obtain ⟨ys, hys⟩ := head_of_listPref ( List.rdropWhile_prefix p (s.dropWhile p)) x xs hxs
    have hpx : p x = false := by
      have h2 := List.head?_dropWhile_not p s
      rw [hys] at h2
      simpa using h2
    rw [hxs, List.dropWhile_cons, hpx]
    simp

/-! ## `jsTrim` lemmas -/

theorem jsTrim_eq_nil_iff {s : List Char} : jsTrim s = [] ↔ ∀ c ∈ s, isJsWs c := by
  unfold jsTrim
  rw [List.rdropWhile_eq_nil_iff]
  constructor
  · intro h c hc
    by_cases hd : s.dropWhile isJsWs = []
    · exact List.dropWhile_eq_nil_iff.mp hd c hc
    · exfalso
      obtain ⟨x, xs, hxs⟩ := List.exists_cons_of_ne_nil hd
      have h2 := List.head?_dropWhile_not isJsWs s
      rw [hxs] at h2
      simp only [List.head?_cons] at h2
      have hx : isJsWs x := h x (by rw [hxs]; exact List.mem_cons_self x xs)
      rw [h2] at hx
      exact Bool.false_ne_true hx
  · intro h c hc
    exact h c ((List.dropWhile_sublist isJsWs).mem hc)

theorem jsTrim_idem (s : List Char) : jsTrim (jsTrim s) = jsTrim s := by
  show jsTrim ((s.dropWhile isJsWs).rdropWhile isJsWs) = _
  unfold jsTrim
  rw [dropWhile_rdropWhile_comm, List.rdropWhile_idempotent, List.dropWhile_idempotent]

theorem jsTrim_dropWhile (s : List Char) :
    jsTrim (s.dropWhile isJsWs) = jsTrim s := by
  unfold jsTrim
  rw [List.dropWhile_idempotent]

theorem jsTrim_rdropWhile (s : List Char) :
    jsTrim (s.rdropWhile isJsWs) = jsTrim s := by
  unfold jsTrim
  rw [dropWhile_rdropWhile_comm, List.rdropWhile_idempotent]

theorem mem_jsTrim {c : Char} {s : List Char} (h : c ∈ jsTrim s) : c ∈ s := by
  unfold jsTrim at h
  exact (List.dropWhile_sublist isJsWs).mem (( List.rdropWhile_prefix isJsWs _).sublist.mem h)

theorem jsTrim_append_ws_right {x w : List Char} (h : ∀ c ∈ w, isJsWs c) :
    jsTrim (x ++ w) = jsTrim x := by
  unfold jsTrim
  by_cases hx : x.dropWhile isJsWs = []
  · rw [List.dropWhile_append, if_pos (by simpa using hx),
      List.dropWhile_eq_nil_iff.mpr h, hx]
  · have hx2 : ∃ a ∈ x, ¬ isJsWs a := by
      by_contra hno
      push_neg at hno
      exact hx (List.dropWhile_eq_nil_iff.mpr hno)
    rw [dropWhile_append_of_neg hx2, rdropWhile_append_of_pos h]

/-! ## `splitLines` / `joinLines` lemmas -/

theorem joinLines_cons_cons (a b : List Char) (t : List (List Char)) :
    joinLines (a :: b :: t) = a ++ Char.ofNat 10 :: joinLines (b :: t) := rfl

theorem joinLines_splitLines : ∀ s : List Char, joinLines (splitLines s) = s
  | [] => rfl
  | c :: s => by
    have ih := joinLines_splitLines s
    unfold splitLines at ih ⊢
    by_cases hc : c = Char.ofNat 10
    · simp only [splitLinesCore, hc, if_true]
      rw [joinLines_cons_cons, ih]
      simp
    · simp only [splitLinesCore, hc, if_false]
      cases hr : (splitLinesCore s).2 with
      | nil =>
        rw [hr] at ih
        simp only [joinLines] at ih ⊢
        rw [ih]
      | cons r0 r' =>
        rw [hr] at ih
        rw [joinLines_cons_cons] at ih ⊢
        rw [List.cons_append, ih]

theorem splitLinesCore_of_no_newline :
    ∀ {a : List Char}, Char.ofNat 10 ∉ a → splitLinesCore a = (a, [])
  | [], _ => rfl
  | c :: a, h => by
    have hc : c ≠ Char.ofNat 10 := fun hh => h (hh ▸ List.mem_cons_self c a)
    have ih := splitLinesCore_of_no_newline (fun hh => h (List.mem_cons_of_mem c hh))
    simp only [splitLinesCore, hc, if_false, ih]

theorem splitLines_of_no_newline {a : List Char} (h : Char.ofNat 10 ∉ a) :
    splitLines a = [a] := by
  unfold splitLines
  rw [splitLinesCore_of_no_newline h]

theorem splitLinesCore_append_newline :
    ∀ {a : List Char}, Char.ofNat 10 ∉ a → ∀ z : List Char,
      splitLinesCore (a ++ Char.ofNat 10 :: z) = (a, splitLines z)
  | [], _, z => by
    simp only [List.nil_append, splitLinesCore, if_true]
    rfl
  | c :: a, h, z => by
    have hc : c ≠ Char.ofNat 10 := fun hh => h (hh ▸ List.mem_cons_self c a)
    have ih := splitLinesCore_append_newline
      (fun hh => h (List.mem_cons_of_mem c hh)) z
    simp only [List.cons_append, splitLinesCore, hc, if_false, List.append_eq]
    rw [ih]

theorem splitLines_joinLines :
    ∀ {K : List (List Char)}, K ≠ [] → (∀ l ∈ K, Char.ofNat 10 ∉ l) →
      splitLines (joinLines K) = K
  | [], h, _ => absurd rfl h
  | [a], _, hK => by
    show splitLines a = [a]
    exact splitLines_of_no_newline (hK a (List.mem_cons_self a []))
  | a :: b :: t, _, hK => by
    have ih := splitLines_joinLines (K := b :: t) (List.cons_ne_nil b t)
      (fun l hl => hK l (List.mem_cons_of_mem a hl))
    rw [joinLines_cons_cons]
    unfold splitLines
    rw [splitLinesCore_append_newline (hK a (List.mem_cons_self a _)) _]
    show a :: splitLines (joinLines (b :: t)) = a :: b :: t
    rw [ih]

theorem splitLines_no_newline :
    ∀ (s : List Char), ∀ l ∈ splitLines s, Char.ofNat 10 ∉ l
  | [], l, hl => by
    simp only [splitLines, splitLinesCore, List.mem_singleton] at hl
    subst hl
    exact List.not_mem_nil _
  | c :: s, l, hl => by
    have ih := splitLines_no_newline s
    unfold splitLines at hl
    by_cases hc : c = Char.ofNat 10
    · simp only [splitLinesCore, hc, if_true] at hl
      rcases List.mem_cons.mp hl with h | h
      · subst h; exact List.not_mem_nil _
      · exact ih l h
    · simp only [splitLinesCore, hc, if_false] at hl
      rcases List.mem_cons.mp hl with h | h
      · subst h
        intro hmem
        rcases List.mem_cons.mp hmem with h' | h'
        · exact hc h'.symm
        · exact ih _ (List.mem_cons_self _ _) h'
      · exact ih l (List.mem_cons_of_mem _ h)

theorem mem_of_mem_splitLines :
    ∀ {s l : List Char} {c : Char}, l ∈ splitLines s → c ∈ l → c ∈ s := by
  intro s
  induction s with
  | nil =>
    intro l c hl hc
    simp only [splitLines, splitLinesCore, List.mem_singleton] at hl
    subst hl
    exact absurd hc (List.not_mem_nil c)
  | cons a s ih =>
    intro l c hl hc
    unfold splitLines at hl
    by_cases ha : a = Char.ofNat 10
    · simp only [splitLinesCore, ha, if_true] at hl
      rcases List.mem_cons.mp hl with h | h
      · subst h; exact absurd hc (List.not_mem_nil c)
      · exact List.mem_cons_of_mem a (ih h hc)
    · simp only [splitLinesCore, ha, if_false] at hl
      rcases List.mem_cons.mp hl with h | h
      · subst h
        rcases List.mem_cons.mp hc with h' | h'
        · exact h' ▸ List.mem_cons_self a s
        · exact List.mem_cons_of_mem a (ih (List.mem_cons_self _ _) h')
      · exact List.mem_cons_of_mem a (ih (List.mem_cons_of_mem _ h) hc)

theorem mem_joinLines :
    ∀ {K : List (List Char)} {c : Char}, c ∈ joinLines K →
      c = Char.ofNat 10 ∨ ∃ l ∈ K, c ∈ l
  | [], c, h => absurd h (List.not_mem_nil c)
  | [a], c, h => Or.inr ⟨a, List.mem_cons_self a [], h⟩
  | a :: b :: t, c, h => by
    rw [joinLines_cons_cons] at h
    rcases List.mem_append.mp h with h' | h'
    · exact Or.inr ⟨a, List.mem_cons_self a _, h'⟩
    · rcases List.mem_cons.mp h' with h'' | h''
      · exact Or.inl h''
      · rcases mem_joinLines h'' with h3 | ⟨l, hl, hcl⟩
        · exact Or.inl h3
        · exact Or.inr ⟨l, List.mem_cons_of_mem a hl, hcl⟩

/-! ## `sanitizeLoop` lemmas -/

theorem sanitizeLoop_inBanned :
    ∀ (L : List (List Char)) (fS : Bool), sanitizeLoop L fS true = []
  | [], _ => rfl
  | line :: rest, fS => by
    simp only [sanitizeLoop]
    by_cases hb : startsWithAny bannedHeaderStrings (jsTrim line)
    · simp only [hb, if_true]
      exact sanitizeLoop_inBanned rest fS
    · simp only [hb, if_false, if_true]
      exact sanitizeLoop_inBanned rest fS

theorem sanitizeLoop_sub :
    ∀ (L : List (List Char)) (fS iB : Bool), ∀ l ∈ sanitizeLoop L fS iB, l ∈ L := by
  intro L
  induction L with
  | nil => intro fS iB l hl; exact absurd hl (List.not_mem_nil l)
  | cons line rest ih =>
    intro fS iB l hl
    simp only [sanitizeLoop] at hl
    by_cases hb : startsWithAny bannedHeaderStrings (jsTrim line)
    · rw [if_pos hb] at hl
      exact List.mem_cons_of_mem line (ih fS true l hl)
    · rw [if_neg hb] at hl
      cases iB with
      | true =>
        rw [if_pos rfl] at hl
        exact List.mem_cons_of_mem line (ih fS true l hl)
      | false =>
        rw [if_neg (by simp)] at hl
        cases fS with
        | true =>
          rw [if_pos rfl] at hl
          rcases List.mem_cons.mp hl with h | h
          · exact h ▸ List.mem_cons_self line rest
          · exact List.mem_cons_of_mem line (ih true false l h)
        | false =>
          rw [if_neg (by simp)] at hl
          by_cases hp : startsWithAny preambleStrings (jsTrim line)
          · rw [if_pos hp] at hl
            exact List.mem_cons_of_mem line (ih false false l hl)
          · rw [if_neg hp] at hl
            by_cases he : jsTrim line = []
            · rw [if_pos he] at hl
              exact List.mem_cons_of_mem line (ih false false l hl)
            · rw [if_neg he] at hl
              rcases List.mem_cons.mp hl with h | h
              · exact h ▸ List.mem_cons_self line rest
              · exact List.mem_cons_of_mem line (ih true false l h)

theorem sanitizeLoop_banned_free :
    ∀ (L : List (List Char)) (fS iB : Bool), ∀ l ∈ sanitizeLoop L fS iB,
      startsWithAny bannedHeaderStrings (jsTrim l) = false := by
  intro L
  induction L with
  | nil => intro fS iB l hl; exact absurd hl (List.not_mem_nil l)
  | cons line rest ih =>
    intro fS iB l hl
    simp only [sanitizeLoop] at hl
    by_cases hb : startsWithAny bannedHeaderStrings (jsTrim line)
    · rw [if_pos hb] at hl
      exact ih fS true l hl
    · rw [if_neg hb] at hl
      cases iB with
      | true =>
        rw [if_pos rfl] at hl
        exact ih fS true l hl
      | false =>
        rw [if_neg (by simp)] at hl
        cases fS with
        | true =>
          rw [if_pos rfl] at hl
          rcases List.mem_cons.mp hl with h | h
          · rw [h]; simpa using hb
          · exact ih true false l h
        | false =>
          rw [if_neg (by simp)] at hl
          by_cases hp : startsWithAny preambleStrings (jsTrim line)
          · rw [if_pos hp] at hl
            exact ih false false l hl
          · rw [if_neg hp] at hl
            by_cases he : jsTrim line = []
            · rw [if_pos he] at hl
              exact ih false false l hl
            · rw [if_neg he] at hl
              rcases List.mem_cons.mp hl with h | h
              · rw [h]; simpa using hb
              · exact ih true false l h

theorem sanitizeLoop_found_all :
    ∀ (L : List (List Char)),
      (∀ l ∈ L, startsWithAny bannedHeaderStrings (jsTrim l) = false) →
      sanitizeLoop L true false = L
  | [], _ => rfl
  | line :: rest, h => by
    have hb := h line (List.mem_cons_self line rest)
    simp only [sanitizeLoop, hb, if_true, if_false, Bool.false_eq_true]
    rw [sanitizeLoop_found_all rest (fun l hl => h l (List.mem_cons_of_mem line hl))]

theorem sanitizeLoop_head :
    ∀ {L : List (List Char)} {m : List Char} {ms : List (List Char)},
      sanitizeLoop L false false = m :: ms →
      jsTrim m ≠ [] ∧ startsWithAny bannedHeaderStrings (jsTrim m) = false ∧
        startsWithAny preambleStrings (jsTrim m) = false := by
  intro L
  induction L with
  | nil => intro m ms h; exact absurd h (by simp [sanitizeLoop])
  | cons line rest ih =>
    intro m ms h
    simp only [sanitizeLoop] at h
    by_cases hb : startsWithAny bannedHeaderStrings (jsTrim line)
    · rw [if_pos hb, sanitizeLoop_inBanned] at h
      exact absurd h (List.cons_ne_nil m ms).symm
    · rw [if_neg (by simpa using hb)] at h
      rw [if_neg (by simp)] at h
      rw [if_neg (by simp)] at h
      by_cases hp : startsWithAny preambleStrings (jsTrim line)
      · rw [if_pos hp] at h
        exact ih h
      · rw [if_neg (by simpa using hp)] at h
        by_cases he : jsTrim line = []
        · rw [if_pos he] at h
          exact ih h
        · rw [if_neg he] at h
          have hm : line = m := (List.cons.injEq _ _ _ _ ▸ h).1
          subst hm
          exact ⟨he, by simpa using hb, by simpa using hp⟩

theorem sanitizeLoop_id {m : List Char} {ms : List (List Char)}
    (h1 : jsTrim m ≠ [])
    (h2 : startsWithAny bannedHeaderStrings (jsTrim m) = false)
    (h3 : startsWithAny preambleStrings (jsTrim m) = false)
    (h4 : ∀ l ∈ ms, startsWithAny bannedHeaderStrings (jsTrim l) = false) :
    sanitizeLoop (m :: ms) false false = m :: ms := by
  simp only [sanitizeLoop, h2, h3, if_false, Bool.false_eq_true, h1, if_neg]
  rw [sanitizeLoop_found_all ms h4]

/-! ## Line decomposition of `jsTrim (joinLines K)`

These lemmas characterise how the final `trim` of the sanitizer interacts
with the line structure of its output: trimming removes trailing blank
lines and edge-trims the first and last surviving lines, and every
surviving line trim-agrees with one of the original lines. -/

/-- A line whose `trim` is empty (consists of whitespace only). -/
def isBlankLine (l : List Char) : Bool := (jsTrim l).isEmpty

theorem joinLines_append :
    ∀ {A B : List (List Char)}, A ≠ [] → B ≠ [] →
      joinLines (A ++ B) = joinLines A ++ Char.ofNat 10 :: joinLines B
  | [], _, hA, _ => absurd rfl hA
  | [a], b :: B', _, _ => by
    rw [List.singleton_append, joinLines_cons_cons]
    rfl
  | a :: a' :: A', B, _, hB => by
    have ih := joinLines_append (A := a' :: A') (B := B) (List.cons_ne_nil a' A') hB
    show a ++ Char.ofNat 10 :: joinLines ((a' :: A') ++ B) =
      (a ++ Char.ofNat 10 :: joinLines (a' :: A')) ++ Char.ofNat 10 :: joinLines B
    rw [ih]
    simp

theorem mem_joinLines_of_mem :
    ∀ {K : List (List Char)} {l : List Char} {c : Char}, l ∈ K → c ∈ l →
      c ∈ joinLines K
  | [], l, c, hl, _ => absurd hl (List.not_mem_nil l)
  | [a], l, c, hl, hc => by
    rcases List.mem_singleton.mp hl with h
    exact h ▸ hc
  | a :: b :: t, l, c, hl, hc => by
    rw [joinLines_cons_cons]
    rcases List.mem_cons.mp hl with h | h
    · exact List.mem_append.mpr (Or.inl (h ▸ hc))
    · exact List.mem_append.mpr (Or.inr (List.mem_cons_of_mem _
        (mem_joinLines_of_mem h hc)))

theorem rdropWhile_append_rtakeWhile {α : Type} (p : α → Bool) (l : List α) :
    l.rdropWhile p ++ l.rtakeWhile p = l := by
  unfold List.rdropWhile List.rtakeWhile
  rw [← List.reverse_append, List.takeWhile_append_dropWhile, List.reverse_reverse]

theorem mem_ws_of_blank_joinLines {B : List (List Char)}
    (hB : ∀ l ∈ B, isBlankLine l) : ∀ c ∈ joinLines B, isJsWs c := by
  intro c hc
  rcases mem_joinLines @hc with h | ⟨l, hl, hcl⟩
  · rw [h]; rfl
  · have := hB l hl
    unfold isBlankLine at this
    rw [List.isEmpty_eq_true] at this
    exact jsTrim_eq_nil_iff.mp this c hcl

/-- Right-trimming the join of several newline-free lines: the last line is
right-trimmed in place (earlier lines are untouched) provided it contains a
non-whitespace character; a whitespace-only result collapses consistently. -/
def editLast : List (List Char) → List (List Char)
  | [] => []
  | [l] => [l.rdropWhile isJsWs]
  | l :: l' :: ls => l :: editLast (l' :: ls)

theorem mem_editLast :
    ∀ {t : List (List Char)} {m : List Char}, m ∈ editLast t →
      ∃ l ∈ t, m = l ∨ m = l.rdropWhile isJsWs
  | [], m, hm => absurd hm (List.not_mem_nil m)
  | [l], m, hm => by
    rcases List.mem_singleton.mp hm with h
    exact ⟨l, List.mem_cons_self l [], Or.inr h⟩
  | l :: l' :: ls, m, hm => by
    rcases List.mem_cons.mp hm with h | h
    · exact ⟨l, List.mem_cons_self l _, Or.inl h⟩
    · obtain ⟨x, hx, hxm⟩ := mem_editLast h
      exact ⟨x, List.mem_cons_of_mem l hx, hxm⟩

theorem splitLines_rdropWhile_joinLines :
    ∀ {t : List (List Char)}, t ≠ [] → (∀ l ∈ t, Char.ofNat 10 ∉ l) →
      (∃ x, t.getLast? = some x ∧ jsTrim x ≠ []) →
      splitLines ((joinLines t).rdropWhile isJsWs) = editLast t
  | [], h, _, _ => absurd rfl h
  | [l], _, hnl, _ => by
    show splitLines ((joinLines [l]).rdropWhile isJsWs) = [l.rdropWhile isJsWs]
    rw [show joinLines [l] = l from rfl]
    exact splitLines_of_no_newline
      (fun hm => hnl l (List.mem_cons_self l [])
        (( List.rdropWhile_prefix _ _).sublist.mem hm))
  | l :: l' :: ls, _, hnl, hlast => by
    obtain ⟨x, hx, hxtrim⟩ := hlast
    rw [List.getLast?_cons_cons] at hx
    have hxmem : x ∈ l' :: ls := List.mem_of_getLast?_eq_some hx
    have hxc : ∃ c ∈ x, ¬ isJsWs c := by
      by_contra hno
      push_neg at hno
      exact hxtrim (jsTrim_eq_nil_iff.mpr hno)
    have hex : ∃ c ∈ joinLines (l' :: ls), ¬ isJsWs c := by
      obtain ⟨c, hc, hcw⟩ := hxc
      exact ⟨c, mem_joinLines_of_mem hxmem hc, hcw⟩
    have ih := splitLines_rdropWhile_joinLines (t := l' :: ls)
      (List.cons_ne_nil l' ls)
      (fun a ha => hnl a (List.mem_cons_of_mem l ha)) ⟨x, hx, hxtrim⟩
    rw [joinLines_cons_cons]
    rw [show l ++ Char.ofNat 10 :: joinLines (l' :: ls) =
      (l ++ [Char.ofNat 10]) ++ joinLines (l' :: ls) by simp]
    rw [rdropWhile_append_of_neg hex]
    rw [show (l ++ [Char.ofNat 10]) ++ (joinLines (l' :: ls)).rdropWhile isJsWs =
      l ++ Char.ofNat 10 :: ((joinLines (l' :: ls)).rdropWhile isJsWs) by simp]
    unfold splitLines
    rw [splitLinesCore_append_newline (hnl l (List.mem_cons_self l _)) _]
    show l :: splitLines ((joinLines (l' :: ls)).rdropWhile isJsWs) =
      editLast (l :: l' :: ls)
    rw [ih]
    rfl

/-- The line decomposition of a sanitizer output: `jsTrim (joinLines (h₀ :: t))`
splits into a head line that trim-agrees with `h₀` and lines each
trim-agreeing with a line of `t`, provided `h₀` is substantive. -/
theorem splitLines_jsTrim_joinLines
    {h₀ : List Char} {t : List (List Char)}
    (hnl : ∀ l ∈ h₀ :: t, Char.ofNat 10 ∉ l)
    (hh : jsTrim h₀ ≠ []) :
    ∃ m ms, splitLines (jsTrim (joinLines (h₀ :: t))) = m :: ms ∧
      jsTrim m = jsTrim h₀ ∧
      ∀ y ∈ ms, ∃ l ∈ t, jsTrim y = jsTrim l := by
  -- drop the trailing blank lines of `h₀ :: t` first
  have hK2split := rdropWhile_append_rtakeWhile isBlankLine (h₀ :: t)
  have hK2ne : (h₀ :: t).rdropWhile isBlankLine ≠ [] := by
    rw [Ne, List.rdropWhile_eq_nil_iff]
    intro hall
    have := hall h₀ (List.mem_cons_self h₀ t)
    unfold isBlankLine at this
    rw [List.isEmpty_eq_true] at this
    exact hh this
  obtain ⟨k0, t₂, hK2⟩ := List.exists_cons_of_ne_nil hK2ne
  have hk0 : k0 = h₀ := by
    obtain ⟨ys, hys⟩ := head_of_listPref ( List.rdropWhile_prefix isBlankLine (h₀ :: t))
      k0 t₂ hK2
    exact (List.cons.injEq _ _ _ _ ▸ hys).1.symm
  rw [hk0] at hK2
  clear hk0
  -- the prefix relation gives `t₂ ++ zs = t`, so `t₂ ⊆ t`
  have ht₂sub : ∀ l ∈ t₂, l ∈ t := by
    obtain ⟨zs, hzs⟩ := List.rdropWhile_prefix isBlankLine (h₀ :: t)
    rw [hK2, List.cons_append] at hzs
    injection hzs with h1 h2
    intro l hl
    rw [← h2]
    exact List.mem_append.mpr (Or.inl hl)
  -- the trailing blank lines do not affect the trim
  have hB : ∀ l ∈ (h₀ :: t).rtakeWhile isBlankLine, isBlankLine l :=
    fun l hl => List.mem_rtakeWhile_imp hl
  have hoeq : jsTrim (joinLines (h₀ :: t)) = jsTrim (joinLines (h₀ :: t₂)) := by
    cases hBnil : (h₀ :: t).rtakeWhile isBlankLine with
    | nil =>
      have hKeq : h₀ :: t = h₀ :: t₂ := by
        rw [← hK2split, hK2, hBnil, List.append_nil]
      rw [hKeq]
    | cons b B' =>
      have hKeq : h₀ :: t = (h₀ :: t₂) ++ (b :: B') := by
        rw [← hK2split, hK2, hBnil]
      rw [hKeq, joinLines_append (List.cons_ne_nil _ _) (List.cons_ne_nil _ _)]
      refine jsTrim_append_ws_right ?_
      intro c hc
      rcases List.mem_cons.mp hc with h | h
      · rw [h]; decide
      · exact mem_ws_of_blank_joinLines (hBnil ▸ hB) c h
  rw [hoeq]
  cases t₂ with
  | nil =>
    refine ⟨jsTrim h₀, [], ?_, jsTrim_idem h₀,
      fun y hy => absurd hy (List.not_mem_nil y)⟩
    rw [show joinLines [h₀] = h₀ from rfl]
    exact splitLines_of_no_newline
      (fun hm => hnl h₀ (List.mem_cons_self _ _) (mem_jsTrim hm))
  | cons l' ls =>
    -- the last surviving line is not blank
    have hlast0 := List.rdropWhile_last_not isBlankLine (h₀ :: t) hK2ne
    have hlq : ((h₀ :: t).rdropWhile isBlankLine).getLast? =
        some (((h₀ :: t).rdropWhile isBlankLine).getLast hK2ne) :=
      List.getLast?_eq_getLast _ hK2ne
    have hlq2 : (h₀ :: l' :: ls).getLast? =
        some (((h₀ :: t).rdropWhile isBlankLine).getLast hK2ne) := by
      rw [← hK2]
      exact hlq
    have hxnb : jsTrim ((l' :: ls).getLast (List.cons_ne_nil l' ls)) ≠ [] := by
      have h3 : (l' :: ls).getLast? =
          some (((h₀ :: t).rdropWhile isBlankLine).getLast hK2ne) := by
        rw [← List.getLast?_cons_cons (a := h₀)]
        exact hlq2
      rw [List.getLast?_eq_getLast (l' :: ls) (List.cons_ne_nil l' ls)] at h3
      injection h3 with h4
      rw [h4]
      intro hcon
      refine hlast0 ?_
      show (jsTrim (((h₀ :: t).rdropWhile isBlankLine).getLast hK2ne)).isEmpty = true
      rw [hcon]
      rfl
    have hlastpack : ∃ x, (l' :: ls).getLast? = some x ∧ jsTrim x ≠ [] :=
      ⟨(l' :: ls).getLast (List.cons_ne_nil l' ls),
        List.getLast?_eq_getLast _ _, hxnb⟩
    -- every char of the last line that is not whitespace is in the join
    have hexJ : ∃ c ∈ joinLines (l' :: ls), ¬ isJsWs c := by
      have hxc : ∃ c ∈ (l' :: ls).getLast (List.cons_ne_nil l' ls), ¬ isJsWs c := by
        by_contra hno
        push_neg at hno
        exact hxnb (jsTrim_eq_nil_iff.mpr hno)
      obtain ⟨c, hc, hcw⟩ := hxc
      exact ⟨c, mem_joinLines_of_mem (List.getLast_mem _) hc, hcw⟩
    -- the head line contains a non-whitespace character
    have hho : ∃ c ∈ h₀, ¬ isJsWs c := by
      by_contra hno
      push_neg at hno
      exact hh (jsTrim_eq_nil_iff.mpr hno)
    -- expand the trim around the line structure
    unfold jsTrim
    rw [joinLines_cons_cons, dropWhile_append_of_neg hho]
    rw [show h₀.dropWhile isJsWs ++ Char.ofNat 10 :: joinLines (l' :: ls) =
      (h₀.dropWhile isJsWs ++ [Char.ofNat 10]) ++ joinLines (l' :: ls) by simp]
    rw [rdropWhile_append_of_neg hexJ]
    rw [show (h₀.dropWhile isJsWs ++ [Char.ofNat 10]) ++
        (joinLines (l' :: ls)).rdropWhile isJsWs =
      h₀.dropWhile isJsWs ++ Char.ofNat 10 ::
        ((joinLines (l' :: ls)).rdropWhile isJsWs) by simp]
    have hPnl : Char.ofNat 10 ∉ h₀.dropWhile isJsWs :=
      fun hm => hnl h₀ (List.mem_cons_self _ _)
        ((List.dropWhile_sublist isJsWs).mem hm)
    unfold splitLines
    rw [splitLinesCore_append_newline hPnl _]
    refine ⟨h₀.dropWhile isJsWs,
      splitLines ((joinLines (l' :: ls)).rdropWhile isJsWs), rfl,
      jsTrim_dropWhile h₀, ?_⟩
    rw [splitLines_rdropWhile_joinLines (List.cons_ne_nil l' ls)
      (fun a ha => hnl a (List.mem_cons_of_mem h₀ (ht₂sub a ha))) hlastpack]
    intro y hy
    obtain ⟨l, hl, hyl⟩ := mem_editLast hy
    refine ⟨l, ht₂sub l hl, ?_⟩
    rcases hyl with h | h
    · rw [h]
    · rw [h]
      show jsTrim (l.rdropWhile isJsWs) = jsTrim l
      exact jsTrim_rdropWhile l

/-! ## Sanitizer idempotence analysis (claim C5) -/

/-- A second sanitizer pass changes nothing when the first pass left no
leading/trailing quote characters for the quote-stripping stage to remove. -/
theorem sanitizeModelText_fixed_of_no_edge_quotes (s : List Char)
    (hq : stripEdgeQuotes (sanitizeModelText s) = sanitizeModelText s) :
    sanitizeModelText (sanitizeModelText s) = sanitizeModelText s := by
  cases hKcase : sanitizeLoop (splitLines (stripEdgeQuotes (jsTrim s))) false false with
  | nil =>
    have ho : sanitizeModelText s = [] := by
      show jsTrim (joinLines (sanitizeLoop
        (splitLines (stripEdgeQuotes (jsTrim s))) false false)) = []
      rw [hKcase]
      rfl
    rw [ho]
    rfl
  | cons h₀ t =>
    have hhead := sanitizeLoop_head hKcase
    have hbanned : ∀ l ∈ h₀ :: t,
        startsWithAny bannedHeaderStrings (jsTrim l) = false := by
      intro l hl
      exact sanitizeLoop_banned_free _ false false l (hKcase ▸ hl)
    have hnl : ∀ l ∈ h₀ :: t, Char.ofNat 10 ∉ l := by
      intro l hl
      exact splitLines_no_newline (stripEdgeQuotes (jsTrim s)) l
        (sanitizeLoop_sub _ false false l (hKcase ▸ hl))
    obtain ⟨m, ms, hsplit, hmtrim, hms⟩ := splitLines_jsTrim_joinLines hnl hhead.1
    have hodef : sanitizeModelText s = jsTrim (joinLines (h₀ :: t)) := by
      show jsTrim (joinLines (sanitizeLoop
        (splitLines (stripEdgeQuotes (jsTrim s))) false false)) = _
      rw [hKcase]
    have hotrim : jsTrim (sanitizeModelText s) = sanitizeModelText s := by
      rw [hodef]
      exact jsTrim_idem _
    show jsTrim (joinLines (sanitizeLoop
      (splitLines (stripEdgeQuotes (jsTrim (sanitizeModelText s)))) false false)) =
      sanitizeModelText s
    rw [hotrim, hq, hodef, hsplit]
    rw [sanitizeLoop_id (by rw [hmtrim]; exact hhead.1)
      (by rw [hmtrim]; exact hhead.2.1)
      (by rw [hmtrim]; exact hhead.2.2)
      (by
        intro y hy
        obtain ⟨l, hl, hyl⟩ := hms y hy
        rw [hyl]
        exact hbanned l (List.mem_cons_of_mem h₀ hl))]
    rw [← hsplit, joinLines_splitLines, ← hodef, hotrim]

theorem mem_stripEdgeQuotes {c : Char} {s : List Char}
    (h : c ∈ stripEdgeQuotes s) : c ∈ s :=
  (List.dropWhile_sublist quoteCh).mem
    (( List.rdropWhile_prefix quoteCh _).sublist.mem h)

theorem mem_sanitizeModelText {c : Char} {s : List Char}
    (h : c ∈ sanitizeModelText s) : c = Char.ofNat 10 ∨ c ∈ s := by
  have h1 : c ∈ joinLines (sanitizeLoop
      (splitLines (stripEdgeQuotes (jsTrim s))) false false) := mem_jsTrim h
  rcases mem_joinLines h1 with h2 | ⟨l, hl, hcl⟩
  · exact Or.inl h2
  · refine Or.inr ?_
    have h3 := sanitizeLoop_sub _ false false l hl
    exact mem_jsTrim (mem_stripEdgeQuotes (mem_of_mem_splitLines h3 hcl))

theorem stripEdgeQuotes_eq_self_of_no_quotes {s : List Char}
    (h : ∀ c ∈ s, quoteCh c = false) : stripEdgeQuotes s = s := by
  unfold stripEdgeQuotes
  rw [List.dropWhile_eq_self_iff.mpr
    (fun hl => by rw [h (s.get ⟨0, hl⟩) (List.get_mem s 0 hl)]; exact Bool.false_ne_true)]
  rw [List.rdropWhile_eq_self_iff.mpr
    (fun hl => by rw [h (s.getLast hl) (List.getLast_mem hl)]; exact Bool.false_ne_true)]

/-! ## Claim C5 -/

/-- Concrete input refuting idempotence of the sanitizer: a preamble line
followed by a double-quoted line. -/
def sanitizeCexInput : List Char :=
  ("Result: x".toList) ++ Char.ofNat 10 :: Char.ofNat 34 ::
    ("hello world".toList) ++ [Char.ofNat 34]

/-- C5 counterexample: `sanitizeModelText` is not idempotent.  On the
input `Result: x\n"hello world"` the first pass strips the trailing quote
of the whole string and then drops the preamble line, leaving
`"hello world` — whose now-leading quote only a second pass strips. -/
theorem sanitizeModelText_not_idempotent :
    sanitizeModelText (sanitizeModelText sanitizeCexInput) ≠
      sanitizeModelText sanitizeCexInput := by decide

/-- C5 (amended): the output sanitizer is idempotent on every input
containing no quote characters (`"`, `'`, `“`, `”`): for such `x`,
`sanitize (sanitize x) = sanitize x`, including strings containing none of
the banned preamble or explanation patterns.  (As stated over all strings
the claim fails: removing a preamble or leading blank line can expose a
leading/trailing quote that only the second pass strips.) -/
theorem sanitizeModelText_idempotent_of_no_quotes (s : List Char)
    (h : ∀ c ∈ s, quoteCh c = false) :
    sanitizeModelText (sanitizeModelText s) = sanitizeModelText s := by
  apply sanitizeModelText_fixed_of_no_edge_quotes
  apply stripEdgeQuotes_eq_self_of_no_quotes
  intro c hc
  rcases mem_sanitizeModelText hc with h1 | h1
  · rw [h1]; decide
  · exact h c h1

/-- Witness for C5 (amended) at a concrete quote-free input containing
both a preamble line and an explanation line. -/
theorem sanitizeModelText_idempotent_witness :
    (∀ c ∈ ("Result: a\nIt works.\nNote: b".toList), quoteCh c = false) ∧
      sanitizeModelText (sanitizeModelText ("Result: a\nIt works.\nNote: b".toList)) =
        sanitizeModelText ("Result: a\nIt works.\nNote: b".toList) :=
  ⟨by decide, sanitizeModelText_idempotent_of_no_quotes _ (by decide)⟩

/-! ## Stream reconstruction engine (streaming loop of `runTextAction`) -/

/-- The constant `LONG_TEXT_THRESHOLD` from `App.tsx`. -/
def LONG_TEXT_THRESHOLD : Nat := 8000

/-- The function `clampRange` from `App.tsx` (selection offsets are non-negative
integers, modelled as `Nat`; `Math.max 0` is kept for structure). -/
def clampRange (a b m : Nat) : Nat × Nat :=
  let safeStart := Nat.max 0 (Nat.min a m)
  let safeEnd := Nat.max 0 (Nat.min b m)
  (Nat.min safeStart safeEnd, Nat.max safeStart safeEnd)

/-- Outcome of `JSON.parse` on a `data: ` payload combined with the delta
extraction `json.choices?.[0]?.delta?.content || ''`.  `JSON.parse` is a
host-library call, modelled as an oracle: `failed` is a thrown parse
error, `ok d` a successful parse whose extracted content is `d` (the
empty string when the event carries no content field). -/
inductive ParseOutcome where
  | failed
  | ok (content : List Char)
deriving DecidableEq

/-- The frozen per-action data of the streaming loop: `currentSnapshot`,
`selStart`, `selEnd` and `hasSelection` in `runTextAction`. -/
structure StreamCtx where
  snapshot : List Char
  selStart : Nat
  selEnd : Nat
  hasSelection : Bool

/-- The buffer recomputation performed on an applied chunk:
`original.slice(0, selStart) + accumulatedContent + original.slice(selEnd)`
with a selection, the accumulated content alone for the full document. -/
def rebuildBuffer (ctx : StreamCtx) (acc : List Char) : List Char :=
  if ctx.hasSelection then
    ctx.snapshot.take ctx.selStart ++ acc ++ ctx.snapshot.drop ctx.selEnd
  else acc

/-- Live state of the streaming loop: `accumulatedContent` and the
displayed buffer (the `text` state). -/
structure StreamState where
  acc : List Char
  buffer : List Char
deriving DecidableEq

/-- The `"data: "` line marker. -/
def dataMark : List Char := ("data: ").toList

/-- The `"data: [DONE]"` terminal line. -/
def doneMark : List Char := ("data: [DONE]").toList

/-- Processing of one SSE line in `runTextAction`'s read loop: blank lines
and the `[DONE]` marker are skipped; a `data: ` line has its payload
parsed — a parse failure is logged and skipped, an empty delta is skipped,
and a non-empty delta is appended to the accumulated content with the
buffer rebuilt from the frozen snapshot and range. -/
def processLine (po : List Char → ParseOutcome) (ctx : StreamCtx)
    (st : StreamState) (line : List Char) : StreamState :=
  let trimmed := jsTrim line
  if trimmed = [] then st
  else if trimmed = doneMark then st
  else if dataMark.isPrefixOf trimmed then
    match po (trimmed.drop 6) with
    | ParseOutcome.failed => st
    | ParseOutcome.ok d =>
      if d = [] then st
      else { acc := st.acc ++ d, buffer := rebuildBuffer ctx (st.acc ++ d) }
  else st

/-- The read loop over the complete lines received, in order. -/
def processLines (po : List Char → ParseOutcome) (ctx : StreamCtx)
    (st : StreamState) (lines : List (List Char)) : StreamState :=
  lines.foldl (processLine po ctx) st

/-- Whether a line causes a buffer update (a non-`[DONE]` `data: ` line
parsing to a non-empty delta). -/
def appliesUpdate (po : List Char → ParseOutcome) (line : List Char) : Bool :=
  let trimmed := jsTrim line
  if trimmed = [] then false
  else if trimmed = doneMark then false
  else if dataMark.isPrefixOf trimmed then
    match po (trimmed.drop 6) with
    | ParseOutcome.failed => false
    | ParseOutcome.ok d => !d.isEmpty
  else false

/-- The delta contributed by one line (empty when the line is skipped). -/
def lineDelta (po : List Char → ParseOutcome) (line : List Char) : List Char :=
  let trimmed := jsTrim line
  if trimmed = [] then []
  else if trimmed = doneMark then []
  else if dataMark.isPrefixOf trimmed then
    match po (trimmed.drop 6) with
    | ParseOutcome.failed => []
    | ParseOutcome.ok d => d
  else []

/-- Concatenation of all successfully parsed delta contents, in order. -/
def extractDeltas (po : List Char → ParseOutcome)
    (lines : List (List Char)) : List Char :=
  (lines.map (lineDelta po)).flatten

theorem processLine_acc (po : List Char → ParseOutcome) (ctx : StreamCtx)
    (st : StreamState) (line : List Char) :
    (processLine po ctx st line).acc = st.acc ++ lineDelta po line := by
  unfold processLine lineDelta
  by_cases h1 : jsTrim line = []
  · rw [if_pos h1, if_pos h1, List.append_nil]
  · rw [if_neg h1, if_neg h1]
    by_cases h2 : jsTrim line = doneMark
    · rw [if_pos h2, if_pos h2, List.append_nil]
    · rw [if_neg h2, if_neg h2]
      by_cases h3 : dataMark.isPrefixOf (jsTrim line)
      · rw [if_pos h3, if_pos h3]
        cases po ((jsTrim line).drop 6) with
        | failed => simp
        | ok d =>
          by_cases h4 : d = []
          · simp [h4]
          · simp [h4]
      · rw [if_neg h3, if_neg h3, List.append_nil]

theorem processLine_buffer (po : List Char → ParseOutcome) (ctx : StreamCtx)
    (st : StreamState) (line : List Char) :
    (processLine po ctx st line).buffer =
      if appliesUpdate po line then
        rebuildBuffer ctx (st.acc ++ lineDelta po line)
      else st.buffer := by
  unfold processLine appliesUpdate lineDelta
  by_cases h1 : jsTrim line = []
  · rw [if_pos h1, if_pos h1, if_pos h1]
    rw [if_neg (by simp)]
  · rw [if_neg h1, if_neg h1, if_neg h1]
    by_cases h2 : jsTrim line = doneMark
    · rw [if_pos h2, if_pos h2, if_pos h2, if_neg (by simp)]
    · rw [if_neg h2, if_neg h2, if_neg h2]
      by_cases h3 : dataMark.isPrefixOf (jsTrim line)
      · rw [if_pos h3, if_pos h3, if_pos h3]
        cases po ((jsTrim line).drop 6) with
        | failed => simp
        | ok d =>
          by_cases h4 : d = []
          · simp [h4]
          · simp [h4]
      · rw [if_neg h3, if_neg h3, if_neg h3, if_neg (by simp)]

theorem processLine_skip (po : List Char → ParseOutcome) (ctx : StreamCtx)
    (st : StreamState) (line : List Char)
    (h : appliesUpdate po line = false) :
    processLine po ctx st line = st := by
  unfold processLine
  unfold appliesUpdate at h
  by_cases h1 : jsTrim line = []
  · rw [if_pos h1]
  · rw [if_neg h1] at h ⊢
    by_cases h2 : jsTrim line = doneMark
    · rw [if_pos h2]
    · rw [if_neg h2] at h ⊢
      by_cases h3 : dataMark.isPrefixOf (jsTrim line)
      · rw [if_pos h3] at h ⊢
        cases hpo : po ((jsTrim line).drop 6) with
        | failed => rfl
        | ok d =>
          rw [hpo] at h
          simp at h
          simp [h]
      · rw [if_neg h3]

theorem processLines_acc (po : List Char → ParseOutcome) (ctx : StreamCtx) :
    ∀ (lines : List (List Char)) (st : StreamState),
      (processLines po ctx st lines).acc = st.acc ++ extractDeltas po lines
  | [], st => by simp [processLines, extractDeltas]
  | l :: rest, st => by
    show (processLines po ctx (processLine po ctx st l) rest).acc = _
    rw [processLines_acc po ctx rest (processLine po ctx st l), processLine_acc]
    unfold extractDeltas
    simp

theorem processLines_buffer_inv (po : List Char → ParseOutcome) (ctx : StreamCtx) :
    ∀ (lines : List (List Char)) (st : StreamState),
      st.buffer = rebuildBuffer ctx st.acc →
      (processLines po ctx st lines).buffer =
        rebuildBuffer ctx (processLines po ctx st lines).acc
  | [], st, h => h
  | l :: rest, st, h => by
    show (processLines po ctx (processLine po ctx st l) rest).buffer = _
    refine processLines_buffer_inv po ctx rest (processLine po ctx st l) ?_
    rw [processLine_buffer, processLine_acc]
    by_cases h1 : appliesUpdate po l
    · rw [if_pos h1]
    · rw [if_neg h1, h]
      have : lineDelta po l = [] := by
        unfold appliesUpdate at h1
        unfold lineDelta
        by_cases a1 : jsTrim l = []
        · rw [if_pos a1]
        · rw [if_neg a1] at h1 ⊢
          by_cases a2 : jsTrim l = doneMark
          · rw [if_pos a2]
          · rw [if_neg a2] at h1 ⊢
            by_cases a3 : dataMark.isPrefixOf (jsTrim l)
            · rw [if_pos a3] at h1 ⊢
              cases hpo : po ((jsTrim l).drop 6) with
              | failed => rfl
              | ok d =>
                rw [hpo] at h1
                simp only [Bool.not_eq_true, Bool.not_eq_false'] at h1
                exact List.isEmpty_eq_true.mp (by simpa using h1)
            · rw [if_neg a3]
      rw [this, List.append_nil]

theorem processLines_buffer_applied (po : List Char → ParseOutcome) (ctx : StreamCtx) :
    ∀ (lines : List (List Char)) (st : StreamState),
      lines.any (appliesUpdate po) →
      (processLines po ctx st lines).buffer =
        rebuildBuffer ctx (processLines po ctx st lines).acc
  | [], st, h => by simp at h
  | l :: rest, st, h => by
    have hstep : processLines po ctx st (l :: rest) =
        processLines po ctx (processLine po ctx st l) rest := rfl
    rw [hstep]
    by_cases h1 : appliesUpdate po l
    · refine processLines_buffer_inv po ctx rest _ ?_
      rw [processLine_buffer, processLine_acc, if_pos h1]
    · have hrest : rest.any (appliesUpdate po) := by
        rcases List.any_eq_true.mp h with ⟨x, hx, hax⟩
        rcases List.mem_cons.mp hx with he | he
        · exact absurd (he ▸ hax) (by simpa using h1)
        · exact List.any_eq_true.mpr ⟨x, he, hax⟩
      rw [processLine_skip po ctx st l (by simpa using h1)]
      exact processLines_buffer_applied po ctx rest st hrest

/-! ## Claims C1 and C10 -/

/-- C1: during a Fix/Polish action, for every sequence of stream lines and
every frozen context (snapshot, clamped selection) captured at action
start, after each prefix of the stream in which at least one chunk has
been applied, the live buffer equals
`snapshot.take selStart ++ accumulatedText ++ snapshot.drop selEnd` when a
selection was active, and `accumulatedText` alone in full-document mode:
the buffer is always rebuilt from the frozen snapshot, frozen range and
accumulated text, never from its own previous value. -/
theorem stream_invariant (po : List Char → ParseOutcome) (ctx : StreamCtx)
    (lines : List (List Char)) (k : Nat)
    (h : (lines.take k).any (appliesUpdate po)) :
    (processLines po ctx ⟨[], ctx.snapshot⟩ (lines.take k)).buffer =
      if ctx.hasSelection then
        ctx.snapshot.take ctx.selStart ++
          (processLines po ctx ⟨[], ctx.snapshot⟩ (lines.take k)).acc ++
          ctx.snapshot.drop ctx.selEnd
      else (processLines po ctx ⟨[], ctx.snapshot⟩ (lines.take k)).acc :=
  processLines_buffer_applied po ctx (lines.take k) ⟨[], ctx.snapshot⟩ h

/-- A concrete parse oracle for witnesses: payload `1` parses to delta
`FI`, payload `2` to delta `X`, everything else is a parse error. -/
def poSample : List Char → ParseOutcome := fun p =>
  if p = ("1").toList then ParseOutcome.ok ("FI".toList)
  else if p = ("2").toList then ParseOutcome.ok ("X".toList)
  else ParseOutcome.failed

/-- A concrete frozen context: snapshot `PREFIX-TARGET-SUFFIX`, selection
`(7, 13)`. -/
def sampleCtx : StreamCtx := ⟨("PREFIX-TARGET-SUFFIX").toList, 7, 13, true⟩

/-- Concrete stream lines for witnesses. -/
def sampleLines : List (List Char) := [("data: 1").toList, ("data: 2").toList]

/-- Witness for C1 at a concrete stream against `PREFIX-TARGET-SUFFIX`. -/
theorem stream_invariant_witness :
    ((sampleLines.take 2).any (appliesUpdate poSample)) = true ∧
      (processLines poSample sampleCtx ⟨[], sampleCtx.snapshot⟩ (sampleLines.take 2)).buffer =
        if sampleCtx.hasSelection then
          sampleCtx.snapshot.take sampleCtx.selStart ++
            (processLines poSample sampleCtx ⟨[], sampleCtx.snapshot⟩ (sampleLines.take 2)).acc ++
            sampleCtx.snapshot.drop sampleCtx.selEnd
        else (processLines poSample sampleCtx ⟨[], sampleCtx.snapshot⟩ (sampleLines.take 2)).acc :=
  ⟨by decide, stream_invariant poSample sampleCtx sampleLines 2 (by decide)⟩

/-- C10: while reading the event stream, a `data: ` line whose payload
fails to parse as JSON is skipped without aborting the action and without
modifying the accumulated text or the buffer (the read loop simply
continues), and for every line sequence the final accumulated text — from
which the committed text is sanitized — is exactly the concatenation of
the successfully parsed non-empty delta contents, in order. -/
theorem malformed_data_line_skipped (po : List Char → ParseOutcome)
    (ctx : StreamCtx) (st : StreamState) (line : List Char)
    (hpref : dataMark.isPrefixOf (jsTrim line) = true)
    (hfail : po ((jsTrim line).drop 6) = ParseOutcome.failed) :
    processLine po ctx st line = st ∧
      ∀ lines : List (List Char),
        (processLines po ctx ⟨[], ctx.snapshot⟩ lines).acc =
          extractDeltas po lines := by
  constructor
  · unfold processLine
    by_cases h1 : jsTrim line = []
    · rw [if_pos h1]
    · rw [if_neg h1]
      by_cases h2 : jsTrim line = doneMark
      · rw [if_pos h2]
      · rw [if_neg h2, if_pos hpref, hfail]
  · intro lines
    rw [processLines_acc]
    simp

/-- Witness for C10 at a concrete malformed line. -/
theorem malformed_data_line_skipped_witness :
    (dataMark.isPrefixOf (jsTrim (("data: bad").toList)) = true) ∧
      (poSample ((jsTrim (("data: bad").toList)).drop 6) = ParseOutcome.failed) ∧
      (processLine poSample sampleCtx ⟨("A").toList, ("B").toList⟩ (("data: bad").toList) =
          ⟨("A").toList, ("B").toList⟩ ∧
        ∀ lines : List (List Char),
          (processLines poSample sampleCtx ⟨[], sampleCtx.snapshot⟩ lines).acc =
            extractDeltas poSample lines) :=
  ⟨by decide, by decide,
    malformed_data_line_skipped poSample sampleCtx ⟨("A").toList, ("B").toList⟩
      (("data: bad").toList) (by decide) (by decide)⟩

/-! ## `runTextAction`, undo and the action lifecycle (`App.tsx`) -/

/-- The React state relevant to an action: the buffer (`text`), the
`selection` state, and the retained undo snapshot (`undoSnapshot`,
mirrored into `undoSnapshotRef` by an effect). -/
structure AppState where
  text : List Char
  selection : Nat × Nat
  undoSnapshot : Option (List Char)
deriving DecidableEq

/-- JS truthiness of a `string | null` value (`null` and `''` are falsy),
as used by `if (undoSnapshot)` and `if (!snapshot)`. -/
def jsTruthy : Option (List Char) → Bool
  | none => false
  | some s => !s.isEmpty

/-- The function `applyUndoSnapshot` from `App.tsx`: a falsy snapshot does nothing;
otherwise the buffer is set to the snapshot and the retained snapshot
cleared. -/
def applyUndoSnapshot (st : AppState) (snap : Option (List Char)) : AppState :=
  if jsTruthy snap then { st with text := snap.getD [], undoSnapshot := none }
  else st

/-- The function `handleUndo` from `App.tsx` (`undoSnapshotRef.current` mirrors the
`undoSnapshot` state). -/
def handleUndo (st : AppState) : AppState :=
  applyUndoSnapshot st st.undoSnapshot

/-- The frozen clamped range `[selStart, selEnd]` of `runTextAction`. -/
def frozenRange (st0 : AppState) : Nat × Nat :=
  clampRange st0.selection.1 st0.selection.2 st0.text.length

/-- The flag `hasSelection = selStart !== selEnd`. -/
def hasSelectionOf (st0 : AppState) : Bool :=
  decide ((frozenRange st0).1 ≠ (frozenRange st0).2)

/-- The value `selectedText = hasSelection ? text.slice(selStart, selEnd) : ''`. -/
def selectedTextOf (st0 : AppState) : List Char :=
  if hasSelectionOf st0 then
    (st0.text.take (frozenRange st0).2).drop (frozenRange st0).1
  else []

/-- The value `targetText = selectedText || text`. -/
def targetTextOf (st0 : AppState) : List Char :=
  if (selectedTextOf st0).isEmpty then st0.text else selectedTextOf st0

/-- The long-text gate condition
`!hasSelection && text.length > LONG_TEXT_THRESHOLD`. -/
def gateNeededOf (st0 : AppState) : Bool :=
  !hasSelectionOf st0 && decide (st0.text.length > LONG_TEXT_THRESHOLD)

/-- The frozen stream context of the session (snapshot and range). -/
def sessionCtx (st0 : AppState) : StreamCtx :=
  ⟨st0.text, (frozenRange st0).1, (frozenRange st0).2, hasSelectionOf st0⟩

/-- How one Fix/Polish session plays out, from `runTextAction`'s view:
`httpFail` — the fetch rejects or returns non-2xx (no lines read);
`cancelled k lines` — the user cancels after `k` complete lines;
`readFail k lines` — the stream read throws after `k` complete lines;
`completed lines` — the stream ends normally after all lines. -/
inductive SessionScript where
  | httpFail
  | cancelled (k : Nat) (lines : List (List Char))
  | readFail (k : Nat) (lines : List (List Char))
  | completed (lines : List (List Char))

/-- Classification of one `runTextAction` invocation's end. -/
inductive ActionOutcome where
  | noRequest
  | committed
  | failedSurfaced
  | cancelledByUser
deriving DecidableEq

/-- Result of one `runTextAction` invocation: final state, outcome,
whether a request was issued, whether the long-text confirm was shown. -/
structure ActionResult where
  st : AppState
  outcome : ActionOutcome
  requested : Bool
  gateShown : Bool
deriving DecidableEq

/-- Shallow embedding of `runTextAction` (one invocation; the re-entrant
click that merely requests cancellation of a running session is
represented by the `cancelled` script).  Faithful points: the selection is
clamped and frozen up front; the empty-input check precedes the long-text
gate; `setUndoSnapshot(currentSnapshot)` updates the state but not the
local binding `undoSnapshot` captured by this invocation's closure — the
catch blocks (`if (undoSnapshot) setText(undoSnapshot)`) read that stale
closure value, modelled by `oldUndo`; streaming rebuilds the buffer from
the frozen `currentSnapshot`; the committed branch advances the selection
only in selection mode. -/
def runTextAction (po : List Char → ParseOutcome) (confirmLong : Bool)
    (script : SessionScript) (st0 : AppState) : ActionResult :=
  let selStart := (frozenRange st0).1
  let selEnd := (frozenRange st0).2
  if (jsTrim (targetTextOf st0)).isEmpty then
    ⟨st0, ActionOutcome.noRequest, false, false⟩
  else if gateNeededOf st0 && !confirmLong then
    ⟨st0, ActionOutcome.noRequest, false, true⟩
  else
    let snapshot := st0.text
    let oldUndo := st0.undoSnapshot
    let st1 : AppState := { st0 with undoSnapshot := some snapshot }
    let revert : AppState → AppState := fun st =>
      if jsTruthy oldUndo then { st with text := oldUndo.getD [] } else st
    match script with
    | SessionScript.httpFail =>
      ⟨revert st1, ActionOutcome.failedSurfaced, true, gateNeededOf st0⟩
    | SessionScript.cancelled k lines =>
      let stS := processLines po (sessionCtx st0) ⟨[], st1.text⟩ (lines.take k)
      ⟨revert { st1 with text := stS.buffer },
        ActionOutcome.cancelledByUser, true, gateNeededOf st0⟩
    | SessionScript.readFail k lines =>
      let stS := processLines po (sessionCtx st0) ⟨[], st1.text⟩ (lines.take k)
      ⟨revert { st1 with text := stS.buffer },
        ActionOutcome.failedSurfaced, true, gateNeededOf st0⟩
    | SessionScript.completed lines =>
      let stS := processLines po (sessionCtx st0) ⟨[], st1.text⟩ lines
      let st2 := { st1 with text := stS.buffer }
      let finalContent := sanitizeModelText stS.acc
      if finalContent.isEmpty || (jsTrim finalContent).isEmpty then
        ⟨revert st2, ActionOutcome.failedSurfaced, true, gateNeededOf st0⟩
      else if hasSelectionOf st0 then
        ⟨{ st2 with
            text := snapshot.take selStart ++ finalContent ++ snapshot.drop selEnd,
            selection := (selStart + finalContent.length,
              selStart + finalContent.length) },
          ActionOutcome.committed, true, gateNeededOf st0⟩
      else
        ⟨{ st2 with text := finalContent },
          ActionOutcome.committed, true, gateNeededOf st0⟩

/-- A parse oracle returning a fixed delta for every payload. -/
def poOk (d : String) : List Char → ParseOutcome :=
  fun _ => ParseOutcome.ok d.toList

/-! ## Claims C2, C3, C4 -/

/-- C2 (code bug): a Fix/Polish action that fails mid-stream does not
restore the pre-action snapshot.  The catch block's revert
`if (undoSnapshot) setText(undoSnapshot)` reads the stale closure value of
the `undoSnapshot` state (here `null`), not the `currentSnapshot` local,
so the partially streamed text stays in the buffer.  Concretely: a
full-document action on `text to fix` with no previously retained
snapshot applies one delta `partial`, then the stream read fails; the
buffer ends as `partial`, not `text to fix`. -/
theorem failed_action_keeps_partial_buffer :
    (runTextAction (poOk ("partial")) true
        (SessionScript.readFail 1 [("data: x").toList])
        ⟨("text to fix").toList, (0, 0), none⟩).outcome =
      ActionOutcome.failedSurfaced ∧
    (runTextAction (poOk ("partial")) true
        (SessionScript.readFail 1 [("data: x").toList])
        ⟨("text to fix").toList, (0, 0), none⟩).st.text = ("partial").toList ∧
    ("partial").toList ≠ ("text to fix").toList := by decide

/-- C3 (code bug): cancelling a Fix/Polish action mid-stream does not
revert the buffer to the pre-action snapshot.  The cancellation path's
revert reads the same stale closure value of `undoSnapshot` (here
`null`), so the partially streamed preview text survives.  Concretely:
a full-document action on `rough text` with no previously retained
snapshot applies one delta `Pol`, then the user cancels; the buffer ends
as `Pol`, not `rough text`. -/
theorem cancelled_action_keeps_partial_buffer :
    (runTextAction (poOk ("Pol")) true
        (SessionScript.cancelled 1 [("data: x").toList])
        ⟨("rough text").toList, (0, 0), none⟩).outcome =
      ActionOutcome.cancelledByUser ∧
    (runTextAction (poOk ("Pol")) true
        (SessionScript.cancelled 1 [("data: x").toList])
        ⟨("rough text").toList, (0, 0), none⟩).st.text = ("Pol").toList ∧
    ("Pol").toList ≠ ("rough text").toList := by decide

/-- C4 counterexample: in full-document mode a successful commit does not
advance the selection.  On buffer `rough text` with collapsed selection
`(0, 0)` and streamed output `Polished text body`, the action commits the
sanitized text but leaves the selection state at `(0, 0)` rather than the
claimed collapsed position `selStart + len(sanitized) = 18`. -/
theorem full_document_commit_selection_unchanged :
    (runTextAction (poOk ("Polished text body")) true
        (SessionScript.completed [("data: x").toList])
        ⟨("rough text").toList, (0, 0), none⟩).outcome =
      ActionOutcome.committed ∧
    (runTextAction (poOk ("Polished text body")) true
        (SessionScript.completed [("data: x").toList])
        ⟨("rough text").toList, (0, 0), none⟩).st.text =
      ("Polished text body").toList ∧
    (runTextAction (poOk ("Polished text body")) true
        (SessionScript.completed [("data: x").toList])
        ⟨("rough text").toList, (0, 0), none⟩).st.selection = (0, 0) ∧
    (0, 0) ≠ (0 + ("Polished text body").toList.length,
      0 + ("Polished text body").toList.length) := by decide

theorem jsTrim_sanitizeModelText (x : List Char) :
    jsTrim (sanitizeModelText x) = sanitizeModelText x := by
  show jsTrim (jsTrim (joinLines (sanitizeLoop
    (splitLines (stripEdgeQuotes (jsTrim x))) false false))) = _
  exact jsTrim_idem _

/-- C4 (amended): for every Fix/Polish action whose stream completes (with
the input check and the long-text gate passed), if the sanitized
accumulated text is non-empty the action commits: the buffer becomes
`snapshot.take selStart ++ sanitized ++ snapshot.drop selEnd` in selection
mode and the sanitized text alone in full-document mode, and the
selection is advanced to the collapsed position `selStart + len(sanitized)`
in selection mode only — in full-document mode the selection state is
left unchanged.  An empty sanitized result is instead treated as a
failure. -/
theorem commit_semantics (po : List Char → ParseOutcome) (confirmLong : Bool)
    (lines : List (List Char)) (st0 : AppState)
    (hne : (jsTrim (targetTextOf st0)).isEmpty = false)
    (hgate : (gateNeededOf st0 && !confirmLong) = false) :
    (sanitizeModelText (processLines po (sessionCtx st0) ⟨[], st0.text⟩ lines).acc ≠ [] →
      (runTextAction po confirmLong (SessionScript.completed lines) st0).outcome =
          ActionOutcome.committed ∧
        (runTextAction po confirmLong (SessionScript.completed lines) st0).st.text =
          (if hasSelectionOf st0 then
            st0.text.take (frozenRange st0).1 ++
              sanitizeModelText (processLines po (sessionCtx st0) ⟨[], st0.text⟩ lines).acc ++
              st0.text.drop (frozenRange st0).2
          else
            sanitizeModelText (processLines po (sessionCtx st0) ⟨[], st0.text⟩ lines).acc) ∧
        (hasSelectionOf st0 = true →
          (runTextAction po confirmLong (SessionScript.completed lines) st0).st.selection =
            ((frozenRange st0).1 +
              (sanitizeModelText (processLines po (sessionCtx st0) ⟨[], st0.text⟩ lines).acc).length,
             (frozenRange st0).1 +
              (sanitizeModelText (processLines po (sessionCtx st0) ⟨[], st0.text⟩ lines).acc).length)) ∧
        (hasSelectionOf st0 = false →
          (runTextAction po confirmLong (SessionScript.completed lines) st0).st.selection =
            st0.selection)) ∧
    (sanitizeModelText (processLines po (sessionCtx st0) ⟨[], st0.text⟩ lines).acc = [] →
      (runTextAction po confirmLong (SessionScript.completed lines) st0).outcome =
        ActionOutcome.failedSurfaced) := by
  constructor
  · intro hsan
    have hE : (sanitizeModelText (processLines po (sessionCtx st0) ⟨[], st0.text⟩ lines).acc).isEmpty = false := by
      simp [hsan]
    have hcond : ((sanitizeModelText (processLines po (sessionCtx st0) ⟨[], st0.text⟩ lines).acc).isEmpty ||
        (jsTrim (sanitizeModelText (processLines po (sessionCtx st0) ⟨[], st0.text⟩ lines).acc)).isEmpty) = false := by
      rw [jsTrim_sanitizeModelText, hE]
      rfl
    by_cases hs : hasSelectionOf st0
    · refine ⟨?_, ?_, ?_, ?_⟩ <;>
        simp [runTextAction, hne, hgate, hcond, hs]
    · rw [Bool.not_eq_true] at hs
      refine ⟨?_, ?_, ?_, ?_⟩ <;>
        simp [runTextAction, hne, hgate, hcond, hs]
  · intro hsan
    have hcond : ((sanitizeModelText (processLines po (sessionCtx st0) ⟨[], st0.text⟩ lines).acc).isEmpty ||
        (jsTrim (sanitizeModelText (processLines po (sessionCtx st0) ⟨[], st0.text⟩ lines).acc)).isEmpty) = true := by
      rw [hsan]
      rfl
    simp [runTextAction, hne, hgate, hcond]

/-- Witness for C4 (amended) at the spec's selection-mode example:
`Ths is bad.` with selection `(0, 3)` and output `This`. -/
theorem commit_semantics_witness :
    ((jsTrim (targetTextOf ⟨("Ths is bad.").toList, (0, 3), none⟩)).isEmpty = false) ∧
      ((gateNeededOf ⟨("Ths is bad.").toList, (0, 3), none⟩ && !true) = false) ∧
      ((sanitizeModelText (processLines (poOk ("This"))
          (sessionCtx ⟨("Ths is bad.").toList, (0, 3), none⟩) ⟨[], ("Ths is bad.").toList⟩
          [("data: x").toList]).acc ≠ [] →
        (runTextAction (poOk ("This")) true
          (SessionScript.completed [("data: x").toList])
          ⟨("Ths is bad.").toList, (0, 3), none⟩).outcome = ActionOutcome.committed ∧
        (runTextAction (poOk ("This")) true
          (SessionScript.completed [("data: x").toList])
          ⟨("Ths is bad.").toList, (0, 3), none⟩).st.text =
          (if hasSelectionOf ⟨("Ths is bad.").toList, (0, 3), none⟩ then
            ("Ths is bad.").toList.take (frozenRange ⟨("Ths is bad.").toList, (0, 3), none⟩).1 ++
              sanitizeModelText (processLines (poOk ("This"))
                (sessionCtx ⟨("Ths is bad.").toList, (0, 3), none⟩)
                ⟨[], ("Ths is bad.").toList⟩ [("data: x").toList]).acc ++
              ("Ths is bad.").toList.drop (frozenRange ⟨("Ths is bad.").toList, (0, 3), none⟩).2
          else
            sanitizeModelText (processLines (poOk ("This"))
              (sessionCtx ⟨("Ths is bad.").toList, (0, 3), none⟩)
              ⟨[], ("Ths is bad.").toList⟩ [("data: x").toList]).acc) ∧
        (hasSelectionOf ⟨("Ths is bad.").toList, (0, 3), none⟩ = true →
          (runTextAction (poOk ("This")) true
            (SessionScript.completed [("data: x").toList])
            ⟨("Ths is bad.").toList, (0, 3), none⟩).st.selection =
            ((frozenRange ⟨("Ths is bad.").toList, (0, 3), none⟩).1 +
              (sanitizeModelText (processLines (poOk ("This"))
                (sessionCtx ⟨("Ths is bad.").toList, (0, 3), none⟩)
                ⟨[], ("Ths is bad.").toList⟩ [("data: x").toList]).acc).length,
             (frozenRange ⟨("Ths is bad.").toList, (0, 3), none⟩).1 +
              (sanitizeModelText (processLines (poOk ("This"))
                (sessionCtx ⟨("Ths is bad.").toList, (0, 3), none⟩)
                ⟨[], ("Ths is bad.").toList⟩ [("data: x").toList]).acc).length)) ∧
        (hasSelectionOf ⟨("Ths is bad.").toList, (0, 3), none⟩ = false →
          (runTextAction (poOk ("This")) true
            (SessionScript.completed [("data: x").toList])
            ⟨("Ths is bad.").toList, (0, 3), none⟩).st.selection = (0, 3)))) :=
  ⟨by decide, by decide,
    ((commit_semantics (poOk ("This")) true [("data: x").toList]
      ⟨("Ths is bad.").toList, (0, 3), none⟩ (by decide) (by decide)).1)⟩

/-! ## Claims C8 and C9 -/

theorem text_ne_nil_of_target (st0 : AppState)
    (h1 : (jsTrim (targetTextOf st0)).isEmpty = false) : st0.text ≠ [] := by
  intro hnil
  have hsel0 : selectedTextOf st0 = [] := by
    unfold selectedTextOf
    rw [hnil]
    simp
  have htgt : targetTextOf st0 = [] := by
    unfold targetTextOf
    rw [hsel0, hnil]
    simp
  rw [htgt] at h1
  revert h1
  decide

/-- C8: a Fix/Polish invocation in full-document mode (empty frozen
selection) on a non-blank buffer longer than the 8000-character threshold
shows the confirmation gate before any request is issued, whatever the
user answers; if the user declines, no request is issued, no snapshot is
committed, and the whole state (buffer, selection, retained undo
snapshot) is unchanged. -/
theorem long_text_gate (po : List Char → ParseOutcome) (script : SessionScript)
    (st0 : AppState)
    (hsel : hasSelectionOf st0 = false)
    (hlen : st0.text.length > LONG_TEXT_THRESHOLD)
    (hne : (jsTrim st0.text).isEmpty = false) :
    (∀ confirmLong, (runTextAction po confirmLong script st0).gateShown = true) ∧
      (runTextAction po false script st0).requested = false ∧
      (runTextAction po false script st0).st = st0 := by
  have hsel0 : selectedTextOf st0 = [] := by
    unfold selectedTextOf
    rw [hsel]
    simp
  have htgt : targetTextOf st0 = st0.text := by
    unfold targetTextOf
    rw [hsel0]
    simp
  have hne2 : (jsTrim (targetTextOf st0)).isEmpty = false := by
    rw [htgt]
    exact hne
  have hgn : gateNeededOf st0 = true := by
    unfold gateNeededOf
    rw [hsel]
    simp [hlen]
  refine ⟨?_, ?_, ?_⟩
  · intro confirmLong
    cases confirmLong with
    | false => simp [runTextAction, hne2, hgn]
    | true =>
      cases script <;> simp [runTextAction, hne2, hgn] <;>
        (try split) <;> (try split) <;> rfl
  · simp [runTextAction, hne2, hgn]
  · simp [runTextAction, hne2, hgn]

theorem hasSelectionOf_diag (st0 : AppState) (h : st0.selection.1 = st0.selection.2) :
    hasSelectionOf st0 = false := by
  unfold hasSelectionOf frozenRange clampRange
  rw [h]
  simp

theorem jsTrim_isEmpty_false {s : List Char} (h : ∃ c ∈ s, ¬ isJsWs c) :
    (jsTrim s).isEmpty = false := by
  rw [List.isEmpty_eq_false]
  intro hcon
  obtain ⟨c, hc, hw⟩ := h
  exact hw (jsTrim_eq_nil_iff.mp hcon c hc)

/-- Witness for C8: an 8001-character buffer of `a`, collapsed selection,
declined gate. -/
theorem long_text_gate_witness :
    (hasSelectionOf ⟨List.replicate 8001 'a', (5, 5), none⟩ = false) ∧
      (AppState.text ⟨List.replicate 8001 'a', (5, 5), none⟩).length >
        LONG_TEXT_THRESHOLD ∧
      ((jsTrim (AppState.text ⟨List.replicate 8001 'a', (5, 5), none⟩)).isEmpty = false) ∧
      ((∀ confirmLong, (runTextAction (poOk ("x")) confirmLong SessionScript.httpFail
          ⟨List.replicate 8001 'a', (5, 5), none⟩).gateShown = true) ∧
        (runTextAction (poOk ("x")) false SessionScript.httpFail
          ⟨List.replicate 8001 'a', (5, 5), none⟩).requested = false ∧
        (runTextAction (poOk ("x")) false SessionScript.httpFail
          ⟨List.replicate 8001 'a', (5, 5), none⟩).st =
          ⟨List.replicate 8001 'a', (5, 5), none⟩) :=
  have h1 : hasSelectionOf ⟨List.replicate 8001 'a', (5, 5), none⟩ = false :=
    hasSelectionOf_diag _ rfl
  have h2 : (AppState.text ⟨List.replicate 8001 'a', (5, 5), none⟩).length >
      LONG_TEXT_THRESHOLD := by
    show (List.replicate 8001 'a').length > LONG_TEXT_THRESHOLD
    rw [List.length_replicate]
    decide
  have h3 : (jsTrim (AppState.text ⟨List.replicate 8001 'a', (5, 5), none⟩)).isEmpty =
      false :=
    jsTrim_isEmpty_false ⟨'a', List.mem_replicate.mpr ⟨by decide, rfl⟩, by decide⟩
  ⟨h1, h2, h3,
    long_text_gate (poOk ("x")) SessionScript.httpFail
      ⟨List.replicate 8001 'a', (5, 5), none⟩ h1 h2 h3⟩

theorem committed_shape (po : List Char → ParseOutcome) (confirmLong : Bool)
    (script : SessionScript) (st0 : AppState)
    (h : (runTextAction po confirmLong script st0).outcome = ActionOutcome.committed) :
    (runTextAction po confirmLong script st0).st.undoSnapshot = some st0.text ∧
      st0.text ≠ [] := by
  by_cases h1 : (jsTrim (targetTextOf st0)).isEmpty
  · exfalso
    rw [show (runTextAction po confirmLong script st0).outcome =
      ActionOutcome.noRequest by simp [runTextAction, h1]] at h
    exact absurd h (by decide)
  · rw [Bool.not_eq_true] at h1
    refine ⟨?_, text_ne_nil_of_target st0 h1⟩
    by_cases h2 : (gateNeededOf st0 && !confirmLong) = true
    · exfalso
      rw [show (runTextAction po confirmLong script st0).outcome =
        ActionOutcome.noRequest by simp [runTextAction, h1, h2]] at h
      exact absurd h (by decide)
    · rw [Bool.not_eq_true] at h2
      cases script with
      | httpFail =>
        exfalso
        rw [show (runTextAction po confirmLong SessionScript.httpFail st0).outcome =
          ActionOutcome.failedSurfaced by
            simp [runTextAction, h1, h2]] at h
        exact absurd h (by decide)
      | cancelled k lines =>
        exfalso
        rw [show (runTextAction po confirmLong (SessionScript.cancelled k lines) st0).outcome =
          ActionOutcome.cancelledByUser by
            simp [runTextAction, h1, h2]] at h
        exact absurd h (by decide)
      | readFail k lines =>
        exfalso
        rw [show (runTextAction po confirmLong (SessionScript.readFail k lines) st0).outcome =
          ActionOutcome.failedSurfaced by
            simp [runTextAction, h1, h2]] at h
        exact absurd h (by decide)
      | completed lines =>
        by_cases h3 : ((sanitizeModelText (processLines po (sessionCtx st0) ⟨[], st0.text⟩ lines).acc).isEmpty ||
            (jsTrim (sanitizeModelText (processLines po (sessionCtx st0) ⟨[], st0.text⟩ lines).acc)).isEmpty) = true
        · exfalso
          rw [show (runTextAction po confirmLong (SessionScript.completed lines) st0).outcome =
            ActionOutcome.failedSurfaced by
              simp [runTextAction, h1, h2, h3]] at h
          exact absurd h (by decide)
        · rw [Bool.not_eq_true] at h3
          by_cases hs : hasSelectionOf st0
          · simp [runTextAction, h1, h2, h3, hs]
          · rw [Bool.not_eq_true] at hs
            simp [runTextAction, h1, h2, h3, hs]

/-- C9: undo is consumed exactly once.  After any committed action, the
first `undo` restores the buffer to the retained pre-action snapshot and
clears the snapshot; a second `undo`, with no snapshot held, is a no-op
leaving the state (in particular the buffer) unchanged. -/
theorem undo_consumed_once (po : List Char → ParseOutcome) (confirmLong : Bool)
    (script : SessionScript) (st0 : AppState)
    (h : (runTextAction po confirmLong script st0).outcome = ActionOutcome.committed) :
    (handleUndo (runTextAction po confirmLong script st0).st).text = st0.text ∧
      (handleUndo (runTextAction po confirmLong script st0).st).undoSnapshot = none ∧
      handleUndo (handleUndo (runTextAction po confirmLong script st0).st) =
        handleUndo (runTextAction po confirmLong script st0).st := by
  obtain ⟨hsnap, hnenil⟩ := committed_shape po confirmLong script st0 h
  have h1 : handleUndo (runTextAction po confirmLong script st0).st =
      { (runTextAction po confirmLong script st0).st with
          text := st0.text, undoSnapshot := none } := by
    unfold handleUndo applyUndoSnapshot
    rw [hsnap]
    have htr : jsTruthy (some st0.text) = true := by
      unfold jsTruthy
      simp [hnenil]
    rw [htr, if_pos rfl]
    rfl
  refine ⟨by rw [h1], by rw [h1], ?_⟩
  rw [h1]
  show applyUndoSnapshot _ none = _
  unfold applyUndoSnapshot
  rw [show jsTruthy none = false from rfl]
  simp

/-- Witness for C9 at the spec's example: committed fix of `Ths` →
`This` on `Ths is bad.`, then two undos. -/
theorem undo_consumed_once_witness :
    ((runTextAction (poOk ("This")) true
        (SessionScript.completed [("data: x").toList])
        ⟨("Ths is bad.").toList, (0, 3), none⟩).outcome = ActionOutcome.committed) ∧
      ((handleUndo (runTextAction (poOk ("This")) true
          (SessionScript.completed [("data: x").toList])
          ⟨("Ths is bad.").toList, (0, 3), none⟩).st).text = ("Ths is bad.").toList ∧
        (handleUndo (runTextAction (poOk ("This")) true
          (SessionScript.completed [("data: x").toList])
          ⟨("Ths is bad.").toList, (0, 3), none⟩).st).undoSnapshot = none ∧
        handleUndo (handleUndo (runTextAction (poOk ("This")) true
          (SessionScript.completed [("data: x").toList])
          ⟨("Ths is bad.").toList, (0, 3), none⟩).st) =
          handleUndo (runTextAction (poOk ("This")) true
            (SessionScript.completed [("data: x").toList])
            ⟨("Ths is bad.").toList, (0, 3), none⟩).st) :=
  ⟨by decide,
    undo_consumed_once (poOk ("This")) true
      (SessionScript.completed [("data: x").toList])
      ⟨("Ths is bad.").toList, (0, 3), none⟩ (by decide)⟩

/-! ## Cancellable request controller (`requestWithRetry` in `App.tsx`)

Each attempt runs `request(signal)` under a fresh per-attempt
`AbortController` with a `timeoutMs` timer; a user-level controller's
`abort` is forwarded to the current attempt by a listener added at attempt
start.  The asynchronous behaviour of the environment (what the underlying
request does, and when the user presses cancel) is modelled by a script;
a cancel press can interrupt an attempt in flight or fall inside a backoff
delay.  Key DOM fact reflected in the model: adding an `abort` listener to
an already-aborted signal does not fire it, so a user abort that happened
before an attempt started never aborts that attempt's controller — only
the `signal.aborted` flag observed in the catch block remains true. -/

/-- What the underlying request of one attempt would do by itself. -/
inductive OwnBehavior where
  | succeed (resp : Nat)
  | ownFail (isNet : Bool) (eid : Nat)
  | hang
deriving DecidableEq

/-- When (if ever) the user presses cancel: while attempt `i` is in
flight (before it settles or times out), or during the backoff delay
following attempt `i`, or never.  `abort` fires at most once. -/
inductive CancelPoint where
  | duringFlight (i : Nat)
  | duringBackoff (i : Nat)
  | never
deriving DecidableEq

/-- The environment of one `requestWithRetry` call. -/
structure RWREnv where
  own : Nat → OwnBehavior
  cancel : CancelPoint

/-- Errors distinguishable by the caller: the abort error thrown by an
aborted fetch, a network-classified error (`isNetworkError` true), any
other error, and the controller's own `Error('timeout')`. -/
inductive ErrV where
  | abortE
  | netE (eid : Nat)
  | otherE (eid : Nat)
  | timeoutE
deriving DecidableEq

/-- The predicate `isNetworkError` from `App.tsx` on the modelled errors (an abort
`DOMException` is neither a `TypeError` nor has a network message). -/
def isNetworkErrorV : ErrV → Bool
  | ErrV.netE _ => true
  | _ => false

/-- Result of `requestWithRetry`. -/
inductive RWRRes where
  | ok (resp : Nat)
  | err (e : ErrV)
deriving DecidableEq

/-- One attempt: a user cancel in flight aborts the attempt controller
(the request rejects with an abort error, `timedOut` stays false);
otherwise a hanging request is aborted by the timer (`timedOut` true) and
an own failure rejects with its own error. -/
def attemptRun (env : RWREnv) (i : Nat) : Sum Nat (ErrV × Bool) :=
  if env.cancel = CancelPoint.duringFlight i then Sum.inr (ErrV.abortE, false)
  else
    match env.own i with
    | OwnBehavior.succeed r => Sum.inl r
    | OwnBehavior.hang => Sum.inr (ErrV.abortE, true)
    | OwnBehavior.ownFail isNet e =>
      Sum.inr (if isNet then ErrV.netE e else ErrV.otherE e, false)

/-- The retry loop of `requestWithRetry`: `i` is `attempt`, `backoff` the
current delay, `remaining = retries - attempt`, `userAborted` the
observable `userController.signal.aborted` flag.  Mirrors the source:
`cancelledByUser = aborted && !timedOut` is checked first and propagates
the error; then `retryable = timedOut || isNetworkError(error)` retries
with `delay(backoff); backoff *= 2` while attempts remain; on exhaustion
(or a non-retryable error) a timeout is surfaced as `Error('timeout')`
and any other error is rethrown.  Returns the result, the number of
attempts run, and the list of backoff delays awaited. -/
def rwrGo (env : RWREnv) : Nat → Nat → Nat → Bool → RWRRes × Nat × List Nat
  | remaining, i, backoff, userAborted =>
    match attemptRun env i with
    | Sum.inl r => (RWRRes.ok r, i + 1, [])
    | Sum.inr (e, timedOut) =>
      let userAborted2 := userAborted || decide (env.cancel = CancelPoint.duringFlight i)
      if userAborted2 && !timedOut then (RWRRes.err e, i + 1, [])
      else
        let retryable := timedOut || isNetworkErrorV e
        match remaining with
        | 0 =>
          if timedOut then (RWRRes.err ErrV.timeoutE, i + 1, [])
          else (RWRRes.err e, i + 1, [])
        | remaining' + 1 =>
          if retryable then
            let userAborted3 :=
              userAborted2 || decide (env.cancel = CancelPoint.duringBackoff i)
            let res := rwrGo env remaining' (i + 1) (backoff * 2) userAborted3
            (res.1, res.2.1, backoff :: res.2.2)
          else if timedOut then (RWRRes.err ErrV.timeoutE, i + 1, [])
          else (RWRRes.err e, i + 1, [])

/-- The entry point `requestWithRetry(request, options)`: attempt 0, base
backoff 800 ms, user abort flag initially false. -/
def requestWithRetry (env : RWREnv) (retries : Nat) : RWRRes × Nat × List Nat :=
  rwrGo env retries 0 800 false

/-! ## Claims C6 and C7 -/

/-- An attempt behaviour that fails retryably: a timeout or a transient
network failure. -/
def retryableOwn : OwnBehavior → Bool
  | OwnBehavior.hang => true
  | OwnBehavior.ownFail isNet _ => isNet
  | OwnBehavior.succeed _ => false

/-- The error surfaced for the last attempt's behaviour. -/
def lastErrOf : OwnBehavior → ErrV
  | OwnBehavior.hang => ErrV.timeoutE
  | OwnBehavior.ownFail isNet e => if isNet then ErrV.netE e else ErrV.otherE e
  | OwnBehavior.succeed _ => ErrV.timeoutE

theorem rwrGo_all_retryable (env : RWREnv) (hc : env.cancel = CancelPoint.never) :
    ∀ (remaining i backoff : Nat),
      (∀ j, j ≤ remaining → retryableOwn (env.own (i + j)) = true) →
      rwrGo env remaining i backoff false =
        (RWRRes.err (lastErrOf (env.own (i + remaining))), i + remaining + 1,
          (List.range remaining).map (fun j => backoff * 2 ^ j))
  | 0, i, backoff, h => by
    have h0 := h 0 (Nat.le_refl 0)
    rw [Nat.add_zero] at h0
    cases hown : env.own i with
    | succeed r => rw [hown] at h0; exact absurd h0 (by simp [retryableOwn])
    | hang =>
      rw [rwrGo]
      simp [attemptRun, hc, hown, lastErrOf]
    | ownFail isNet e =>
      have hnet : isNet = true := by rw [hown] at h0; exact h0
      subst hnet
      rw [rwrGo]
      simp [attemptRun, hc, hown, lastErrOf]
  | remaining' + 1, i, backoff, h => by
    have h0 := h 0 (Nat.zero_le _)
    rw [Nat.add_zero] at h0
    have ih := rwrGo_all_retryable env hc remaining' (i + 1) (backoff * 2)
      (fun j hj => by
        have := h (j + 1) (by omega)
        rwa [show i + (j + 1) = i + 1 + j by omega] at this)
    have harith : i + 1 + remaining' = i + (remaining' + 1) := by omega
    have ih2 : rwrGo env remaining' (i + 1) (backoff * 2) false =
        (RWRRes.err (lastErrOf (env.own (i + (remaining' + 1)))),
          i + (remaining' + 1) + 1,
          (List.range remaining').map (fun j => backoff * 2 * 2 ^ j)) := by
      rw [ih, harith]
    have hdelays : (List.range (remaining' + 1)).map (fun j => backoff * 2 ^ j) =
        backoff :: (List.range remaining').map (fun j => backoff * 2 * 2 ^ j) := by
      rw [List.range_succ_eq_map, List.map_cons, List.map_map]
      refine congrArg₂ _ (by ring) ?_
      refine List.map_congr_left ?_
      intro j hj
      show backoff * 2 ^ (j + 1) = backoff * 2 * 2 ^ j
      ring
    cases hown : env.own i with
    | succeed r => rw [hown] at h0; exact absurd h0 (by simp [retryableOwn])
    | hang =>
      rw [rwrGo]
      simp [attemptRun, hc, hown, ih2, hdelays]
    | ownFail isNet e =>
      have hnet : isNet = true := by rw [hown] at h0; exact h0
      subst hnet
      rw [rwrGo]
      simp [attemptRun, hc, hown, isNetworkErrorV, ih2, hdelays]

/-- C7: for every run in which each attempt up to the retry limit times
out or fails with a transient network error and the user never cancels,
the controller waits an exponential backoff delay before each retry —
800 ms, doubling per retry — runs `retries + 1` attempts, and surfaces the
last error; an elapsed per-attempt timeout is surfaced as the distinct
`timeout` error kind, a network failure as its own error. -/
theorem retry_backoff_semantics (env : RWREnv) (retries : Nat)
    (hc : env.cancel = CancelPoint.never)
    (hr : ∀ j, j ≤ retries → retryableOwn (env.own j) = true) :
    requestWithRetry env retries =
      (RWRRes.err (lastErrOf (env.own retries)), retries + 1,
        (List.range retries).map (fun j => 800 * 2 ^ j)) := by
  have h := rwrGo_all_retryable env hc retries 0 800
    (fun j hj => by simpa using hr j hj)
  simpa using h

/-- Witness for C7: three hanging attempts (retries = 2) surface
`timeout` after delays 800 and 1600. -/
theorem retry_backoff_semantics_witness :
    requestWithRetry ⟨fun _ => OwnBehavior.hang, CancelPoint.never⟩ 2 =
      (RWRRes.err ErrV.timeoutE, 3, [800, 1600]) := by
  rw [retry_backoff_semantics ⟨fun _ => OwnBehavior.hang, CancelPoint.never⟩ 2 rfl
    (fun j hj => rfl)]
  decide

/-- C6 counterexample: a user cancellation issued during the retry
backoff delay does not end the whole operation: with one retry available,
attempt 0 failing with a transient network error and the user cancelling
during the backoff window, the next attempt still runs (two attempts in
total, not one) and its response is returned as if no cancellation had
happened. -/
theorem backoff_cancel_does_not_stop_retry :
    requestWithRetry
        ⟨fun j => if j = 0 then OwnBehavior.ownFail true 5 else OwnBehavior.succeed 7,
          CancelPoint.duringBackoff 0⟩ 1 =
      (RWRRes.ok 7, 2, [800]) ∧ (2 : Nat) ≠ 1 := by decide

/-- C6 (amended): the controller never retries after an explicit user
cancellation observed at attempt failure — if the user's abort fired and
the attempt did not time out, the error is propagated immediately,
distinguished from a timeout.  However, a user cancellation issued during
a retry backoff delay does not end the operation during the delay: the
next attempt still runs; if it succeeds its response is returned, and if
it fails without timing out the abort flag propagates that error
immediately instead of retrying further. -/
theorem user_cancel_semantics (env : RWREnv) (retries : Nat) :
    (env.cancel = CancelPoint.duringFlight 0 →
      requestWithRetry env retries = (RWRRes.err ErrV.abortE, 1, [])) ∧
    (env.cancel = CancelPoint.duringBackoff 0 →
      retryableOwn (env.own 0) = true → 1 ≤ retries →
      ((∀ r, env.own 1 = OwnBehavior.succeed r →
        requestWithRetry env retries = (RWRRes.ok r, 2, [800])) ∧
       (∀ b e, env.own 1 = OwnBehavior.ownFail b e →
        requestWithRetry env retries =
          (RWRRes.err (if b then ErrV.netE e else ErrV.otherE e), 2, [800])))) := by
  constructor
  · intro hc
    show rwrGo env retries 0 800 false = _
    rw [rwrGo]
    simp [attemptRun, hc]
  · intro hc hr0 hret
    obtain ⟨r', rfl⟩ : ∃ r', retries = r' + 1 := ⟨retries - 1, by omega⟩
    have step2succ : ∀ r, env.own 1 = OwnBehavior.succeed r →
        rwrGo env r' 1 (800 * 2) true = (RWRRes.ok r, 2, []) := by
      intro r hown1
      rw [rwrGo]
      simp [attemptRun, hc, hown1]
    have step2fail : ∀ b e, env.own 1 = OwnBehavior.ownFail b e →
        rwrGo env r' 1 (800 * 2) true =
          (RWRRes.err (if b then ErrV.netE e else ErrV.otherE e), 2, []) := by
      intro b e hown1
      rw [rwrGo]
      simp [attemptRun, hc, hown1]
    have step1 : rwrGo env (r' + 1) 0 800 false =
        ((rwrGo env r' 1 (800 * 2) true).1, (rwrGo env r' 1 (800 * 2) true).2.1,
          800 :: (rwrGo env r' 1 (800 * 2) true).2.2) := by
      cases hown0 : env.own 0 with
      | succeed s => rw [hown0] at hr0; exact absurd hr0 (by simp [retryableOwn])
      | hang =>
        rw [rwrGo]
        simp [attemptRun, hc, hown0]
      | ownFail isNet e =>
        have hnet : isNet = true := by rw [hown0] at hr0; exact hr0
        subst hnet
        rw [rwrGo]
        simp [attemptRun, hc, hown0, isNetworkErrorV]
    constructor
    · intro r hown1
      show rwrGo env (r' + 1) 0 800 false = _
      rw [step1, step2succ r hown1]
    · intro b e hown1
      show rwrGo env (r' + 1) 0 800 false = _
      rw [step1, step2fail b e hown1]

/-- Witness for C6 (amended): an in-flight cancel at attempt 0 propagates
the abort immediately; a backoff-window cancel after a network failure
lets the next attempt run and return its response. -/
theorem user_cancel_semantics_witness :
    (requestWithRetry ⟨fun _ => OwnBehavior.hang, CancelPoint.duringFlight 0⟩ 3 =
      (RWRRes.err ErrV.abortE, 1, [])) ∧
    (requestWithRetry
        ⟨fun j => if j = 0 then OwnBehavior.ownFail true 5 else OwnBehavior.succeed 7,
          CancelPoint.duringBackoff 0⟩ 1 =
      (RWRRes.ok 7, 2, [800])) :=
  ⟨(user_cancel_semantics ⟨fun _ => OwnBehavior.hang, CancelPoint.duringFlight 0⟩ 3).1 rfl,
    ((user_cancel_semantics
      ⟨fun j => if j = 0 then OwnBehavior.ownFail true 5 else OwnBehavior.succeed 7,
        CancelPoint.duringBackoff 0⟩ 1).2 rfl (by decide) (by decide)).1 7 (by decide)⟩

end FlowPaste
